import Mathlib

/-!
Verification of the finding normalization / validation / deduplication /
aggregation pipeline of the proactive-security-orchestrator repository.

The Python source is shallowly embedded: dictionaries that the code accesses
through `.get(key, default)` become structures with `Option` fields, machine
integers become `Int`/`Nat`, JSON numbers become `ℚ`, and strings become Lean
`String`s (reasoned about through their underlying `List Char`).
-/

namespace PSO

/-- One Evidence Item of a finding, as read by the pipeline
(`finding_validator.py`, `semgrep_analyzer.py`, `gitleaks_scanner.py`).
Fields the code reads with `.get(k, default)` are `Option`-valued. -/
structure Evidence where
  path : Option String
  lines : Option String
  why_relevant : Option String
  code_snippet : Option String
deriving DecidableEq

/-- A Finding Record as a Python dict, restricted to the keys the code ever
reads.  `path` and `lines` are the *finding-level* keys that
`FindingValidator._deduplicate` falls back to when `evidence` is absent or
empty. -/
structure Finding where
  finding : Option String
  evidence : Option (List Evidence)
  confidence : Option ℚ
  tool : Option String
  severity : Option String
  rule_id : Option String
  remediation : Option String
  path : Option String
  lines : Option String
deriving DecidableEq

/-- Dedup key type: `(path, lines, rule_id)`. -/
abbrev DKey := String × String × String

/-- Key computation of `FindingValidator._deduplicate` (finding_validator.py,
lines 74-88): first evidence entry's `path`/`lines` when evidence is present
and non-empty, otherwise the finding-level `path`/`lines` (empty-string
defaults), paired with `rule_id`. -/
def dedupKey (f : Finding) : DKey :=
  match f.evidence.getD [] with
  | [] => (f.path.getD "", f.lines.getD "", f.rule_id.getD "")
  | e :: _ => (e.path.getD "", e.lines.getD "", f.rule_id.getD "")

/-- The loop of `FindingValidator._deduplicate` with its `seen` set made
explicit (a list of keys; only membership is used). -/
def dedupGo (seen : List DKey) : List Finding → List Finding
  | [] => []
  | f :: rest =>
    if dedupKey f ∈ seen then dedupGo seen rest
    else f :: dedupGo (dedupKey f :: seen) rest

/-- `FindingValidator._deduplicate`. -/
def deduplicate (l : List Finding) : List Finding := dedupGo [] l

/-- The spec's description of deduplication, used as the reference for the
refinement proof: keep the head, drop every later record with the same key,
recurse. -/
def keepFirst : List Finding → List Finding
  | [] => []
  | f :: rest => f :: keepFirst (rest.filter (fun g => decide (dedupKey g ≠ dedupKey f)))
termination_by l => l.length
decreasing_by
  simp only [List.length_cons]
  exact Nat.lt_succ_of_le (List.length_filter_le _ _)

/-- The `severity_order` dict lookup `severity_order.get(s, 4)` of
`FindingValidator._sort_by_severity` (applied to the already lower-cased
severity string). -/
def severityTable (s : String) : ℕ :=
  if s = "critical" then 0
  else if s = "high" then 1
  else if s = "medium" then 2
  else if s = "low" then 3
  else if s = "info" then 4
  else 4

/-- Python `str.lower()` (ASCII): lower-case every character. -/
def pyLower (s : String) : String := ⟨s.data.map Char.toLower⟩

/-- Python `str.upper()` (ASCII): upper-case every character. -/
def pyUpper (s : String) : String := ⟨s.data.map Char.toUpper⟩

/-- Primary sort key: `severity_order.get(finding.get("severity", "info").lower(), 4)`. -/
def severityScore (f : Finding) : ℕ :=
  severityTable (pyLower (f.severity.getD "info"))

/-- Model of Python `int()` applied to a string, as used by
`int(lines_str.replace("L", "").split("-")[0])`: surrounding whitespace is
stripped, an optional single sign is accepted, and the remainder must be a
non-empty run of decimal digits.  (Python additionally allows underscores
between digits and non-ASCII digits; such strings cannot reach this call from
the adapters' `L<n>` / `L<n>-L<m>` line fields and are not modelled.) -/
def pyInt (cs : List Char) : Option ℤ :=
  let t := (cs.dropWhile Char.isWhitespace).reverse.dropWhile Char.isWhitespace |>.reverse
  let neg : Bool := t.headD ' ' = '-'
  let ds := if t.headD ' ' = '+' ∨ t.headD ' ' = '-' then t.tail else t
  if !ds.isEmpty && ds.all Char.isDigit then
    some ((if neg then -1 else 1) * (ds.foldl (fun a c => 10 * a + ((c.toNat : ℤ) - 48)) 0))
  else none

-- (The head-based sign handling below is the same case split as matching on
-- a leading '+'/'-' pattern, phrased with `headD`/`tail` to ease proofs.)

/-- Line-number extraction of `FindingValidator._sort_by_severity`:
`int(lines_str.replace("L", "").split("-")[0])` guarded by
`if lines_str:` and `try/except` (defaulting to 0).  `replace("L", "")`
removes every `L`; `split("-")[0]` is the prefix before the first `-`. -/
def parseLineNum (s : String) : ℤ :=
  if s.data = [] then 0
  else ((pyInt ((s.data.filter (fun c => c ≠ 'L')).takeWhile (fun c => c ≠ '-'))).getD 0)

/-- Secondary sort key: line number from the first evidence entry, 0 when
evidence is absent/empty. -/
def lineNumOf (f : Finding) : ℤ :=
  match f.evidence.getD [] with
  | [] => 0
  | e :: _ => parseLineNum (e.lines.getD "")

/-- The composite sort key returned by `sort_key` in
`FindingValidator._sort_by_severity`. -/
def sortKey (f : Finding) : ℕ × ℤ := (severityScore f, lineNumOf f)

/-- Lexicographic non-strict order on composite sort keys, i.e. the order by
which Python's `sorted(findings, key=sort_key)` arranges the records. -/
def keyLe (a b : ℕ × ℤ) : Prop := a.1 < b.1 ∨ (a.1 = b.1 ∧ a.2 ≤ b.2)

/-- The sort relation on findings. -/
def fLe (f g : Finding) : Prop := keyLe (sortKey f) (sortKey g)

instance : DecidableRel fLe := fun f g =>
  inferInstanceAs (Decidable (_ ∨ _))

instance : IsTotal Finding fLe where
  total f g := by
    unfold fLe keyLe
    rcases Nat.lt_trichotomy (sortKey f).1 (sortKey g).1 with h | h | h
    · exact Or.inl (Or.inl h)
    · rcases le_total (sortKey f).2 (sortKey g).2 with h2 | h2
      · exact Or.inl (Or.inr ⟨h, h2⟩)
      · exact Or.inr (Or.inr ⟨h.symm, h2⟩)
    · exact Or.inr (Or.inl h)

instance : IsTrans Finding fLe where
  trans f g h hfg hgh := by
    unfold fLe keyLe at *
    rcases hfg with h1 | ⟨h1, h1'⟩ <;> rcases hgh with h2 | ⟨h2, h2'⟩
    · exact Or.inl (h1.trans h2)
    · exact Or.inl (h2 ▸ h1)
    · exact Or.inl (h1 ▸ h2)
    · exact Or.inr ⟨h1.trans h2, h1'.trans h2'⟩

/-- `FindingValidator._sort_by_severity`: Python's `sorted` is a *stable*
sort by the key function; a stable sort by a total preorder on keys is
extensionally unique, so insertion sort with `fLe` is the same function. -/
def sortFindings (l : List Finding) : List Finding := List.insertionSort fLe l

/-- The validation loop of `FindingValidator.validate_all` (lines 44-52):
each record is kept iff `jsonschema` validation succeeds, modelled by the
Boolean predicate `valid` (the validator object is constructed from a schema
file; the predicate parameter plays the role of that schema). -/
def validationStage (valid : Finding → Bool) : List Finding → List Finding
  | [] => []
  | f :: rest =>
    if valid f then f :: validationStage valid rest else validationStage valid rest

/-- `FindingValidator.validate_all`: validate, then de-duplicate, then sort. -/
def validateAll (valid : Finding → Bool) (l : List Finding) : List Finding :=
  sortFindings (deduplicate (validationStage valid l))

/-! ### Secret redaction (`GitleaksScanner._redact_secret`) -/

/-- `GitleaksScanner._redact_secret` on the character list of the secret:
empty or length ≤ 8 collapses to the placeholder, otherwise
`secret[:4] + "..." + secret[-4:]`. -/
def redactSecret (s : List Char) : List Char :=
  if s = [] then "[REDACTED]".data
  else if s.length ≤ 8 then "[REDACTED]".data
  else s.take 4 ++ "...".data ++ s.drop (s.length - 4)

/-- String-level wrapper of `redactSecret`. -/
def redactStr (s : String) : String := ⟨redactSecret s.data⟩

/-! ### Gitleaks adapter (`GitleaksScanner._to_finding`) -/

/-- One parsed Gitleaks JSON match object, restricted to the keys
`_to_finding` reads. -/
structure GitleaksMatch where
  RuleID : Option String
  File : Option String
  StartLine : Option ℤ
  Secret : Option String
  Match : Option String
  Entropy : Option ℚ
  Line : Option String
deriving DecidableEq

/-- `GitleaksScanner._to_finding` (gitleaks_scanner.py lines 107-153).
JSON numbers are modelled as exact rationals (the Python code uses floats;
no claim depends on rounding), and the `f"{entropy:.2f}"` two-decimal float
formatting inside `why_relevant` is abstracted to `toString`. -/
def gitleaksToFinding (g : GitleaksMatch) : Finding :=
  let rid := g.RuleID.getD ""
  let file_path := g.File.getD ""
  let line_num := g.StartLine.getD 0
  let secret := g.Secret.getD ""
  let m := g.Match.getD ""
  let entropy := g.Entropy.getD 0
  let redacted := redactStr (if secret ≠ "" then secret else m)
  let code_snippet : String := match g.Line with
    | some l => redactStr l
    | none => ""
  { finding := some ("Secret detected: " ++ rid)
    evidence := some [{
      path := some file_path
      lines := some ("L" ++ toString line_num)
      why_relevant := some ("Gitleaks detected potential secret with entropy " ++ toString entropy)
      code_snippet := some (if code_snippet = "" then "[REDACTED]" else code_snippet) }]
    confidence := some (min (7/10 + entropy / 10) (95/100))
    tool := some "gitleaks"
    severity := some "critical"
    rule_id := some rid
    remediation := some ("Remove secret from code and rotate credentials. Match: " ++ redacted)
    path := none
    lines := none }

/-! ### Semgrep adapter (`SemgrepAnalyzer._to_finding`) -/

/-- `extra.metadata` of a Semgrep result, restricted to the keys read. -/
structure SemgrepMeta where
  description : Option String
  cwe : Option String
  cwe_description : Option String
  remediation : Option String
  owasp : Option String
deriving DecidableEq

/-- `extra` of a Semgrep result. -/
structure SemgrepExtra where
  severity : Option String
  lines : Option String
  metadata : Option SemgrepMeta
deriving DecidableEq

/-- One Semgrep JSON result object, restricted to the keys `_to_finding`
reads.  `start_line`/`end_line` stand for `start.get("line", ...)` /
`end.get("line", ...)`; a missing `start`/`end` dict and a missing `line`
key both surface as `none`. -/
structure SemgrepResult where
  check_id : Option String
  path : Option String
  start_line : Option ℤ
  end_line : Option ℤ
  message : Option String
  extra : Option SemgrepExtra
deriving DecidableEq

/-- Substring test, `needle in hay` on Python strings. -/
def pyContains (hay needle : String) : Bool :=
  decide (needle.data <:+: hay.data)

/-- Python `str.title()` on ASCII text: the first character of every run of
alphabetic characters is upper-cased, the rest lower-cased. -/
def pyTitle (s : String) : String :=
  ⟨(s.data.foldl
      (fun (acc : List Char × Bool) c =>
        if c.isAlpha then (acc.1 ++ [if acc.2 then c.toLower else c.toUpper], true)
        else (acc.1 ++ [c], false))
      ([], false)).1⟩

/-- Python `s.replace(a_char, b_char)` for single-character patterns. -/
def pyReplaceChar (s : String) (a b : Char) : String :=
  ⟨s.data.map (fun c => if c = a then b else c)⟩

/-- `SemgrepAnalyzer._format_rule_name`. -/
def formatRuleName (rid : String) : String :=
  let parts := rid.splitOn "."
  if parts.length ≥ 2 then
    let category := parts.getD (parts.length - 2) ""
    let rule_name := pyTitle (pyReplaceChar (parts.getD (parts.length - 1) "") '-' ' ')
    let category :=
      if category = "security" then "Security"
      else if category = "secrets" then "Secret Detection"
      else if category = "deserialization" then "Deserialization"
      else if category = "xss" then "XSS"
      else if category = "injection" then "Injection"
      else pyTitle category
    category ++ ": " ++ rule_name
  else pyTitle (pyReplaceChar (pyReplaceChar rid '.' ' ') '-' ' ')

/-- `SemgrepAnalyzer._extract_remediation`. -/
def extractRemediation (extra : Option SemgrepExtra) (check_id : String) : String :=
  let defaultStr := "Review and fix the security issue identified by rule: " ++ check_id ++
    ". Refer to security best practices for your language and framework."
  match extra.bind (·.metadata) with
  | none => defaultStr
  | some md =>
    match md.remediation with
    | some r => r
    | none =>
      match md.owasp with
      | some ow => "Follow OWASP guidelines: " ++ ow
      | none =>
        let cid := pyLower check_id
        if pyContains cid "deserialization" || pyContains cid "pickle" then
          "Avoid using pickle for deserializing untrusted data. Use JSON or other safe serialization formats. If pickle is necessary, ensure data comes from trusted sources only."
        else if pyContains cid "xss" || pyContains cid "jinja2" then
          "Use Flask's auto-escaping or manually escape user input before rendering in templates. Never render user input directly without escaping."
        else if pyContains cid "secrets" || pyContains cid "private-key" then
          "Remove hardcoded secrets, API keys, or private keys from code. Use environment variables, secret management systems, or secure vaults. Rotate any exposed credentials immediately."
        else if pyContains cid "injection" then
          "Use parameterized queries or prepared statements. Never concatenate user input directly into queries or commands."
        else defaultStr

/-- The `severity_map.get(severity.upper(), "medium")` lookup of
`SemgrepAnalyzer._to_finding` (semgrep_analyzer.py lines 140-146). -/
def semgrepMapSeverity (s : String) : String :=
  let u := pyUpper s
  if u = "ERROR" then "critical"
  else if u = "WARNING" then "high"
  else if u = "INFO" then "medium"
  else "medium"

/-- The `finding` message fallback chain of `SemgrepAnalyzer._to_finding`. -/
def semgrepMessage (r : SemgrepResult) : String :=
  let m := r.message.getD ""
  let m :=
    if m = "" then
      match r.extra.bind (·.metadata) with
      | some md => md.description.getD ""
      | none => m
    else m
  if m = "" then formatRuleName (r.check_id.getD "") else m

/-- The `why_relevant` computation of `SemgrepAnalyzer._to_finding`. -/
def semgrepWhyRelevant (r : SemgrepResult) (check_id : String) : String :=
  match r.extra.bind (·.metadata) with
  | some md =>
    match md.cwe with
    | some c =>
      if c ≠ "" then
        "CWE-" ++ c ++ ": " ++ (md.cwe_description.getD "Security vulnerability detected")
      else md.description.getD ("Semgrep rule " ++ check_id ++ " detected this security issue")
    | none => md.description.getD ("Semgrep rule " ++ check_id ++ " detected this security issue")
  | none => "Semgrep security rule detected: " ++ check_id

/-- The `lines_str` computation of `SemgrepAnalyzer._to_finding`:
`"L<start>"` when start and end line coincide, else `"L<start>-L<end>"`. -/
def semgrepLinesStr (r : SemgrepResult) : String :=
  if r.start_line.getD 0 = r.end_line.getD (r.start_line.getD 0) then
    "L" ++ toString (r.start_line.getD 0)
  else
    "L" ++ toString (r.start_line.getD 0) ++ "-L" ++ toString (r.end_line.getD (r.start_line.getD 0))

/-- The `code_snippet` computation of `SemgrepAnalyzer._to_finding`
(first 3 lines of `extra["lines"]`, stripped). -/
def semgrepSnippet (r : SemgrepResult) : String :=
  match r.extra.bind (·.lines) with
  | some ls => (String.intercalate "\n" ((ls.splitOn "\n").take 3)).trim
  | none => ""

/-- `SemgrepAnalyzer._to_finding` (semgrep_analyzer.py lines 105-189). -/
def semgrepToFinding (r : SemgrepResult) : Finding :=
  let check_id := r.check_id.getD ""
  let path := r.path.getD ""
  let severity := (r.extra.bind (·.severity)).getD "medium"
  { finding := some (semgrepMessage r)
    evidence := some [{
      path := some path
      lines := some (semgrepLinesStr r)
      why_relevant := some (semgrepWhyRelevant r check_id)
      code_snippet := some (semgrepSnippet r) }]
    confidence := some 1
    tool := some "semgrep"
    severity := some (semgrepMapSeverity severity)
    rule_id := some check_id
    remediation := some (extractRemediation r.extra check_id)
    path := none
    lines := none }

/-! ### Orchestrator (`SecurityScanner.scan`, security_orchestrator.py) -/

/-- The three feature flags of `SecurityScanner` (`ENABLE_SEMGREP`,
`ENABLE_GITLEAKS`, `STRICT_VALIDATION`). -/
structure ScanConfig where
  enableSemgrep : Bool
  enableGitleaks : Bool
  strictValidation : Bool
deriving DecidableEq

/-- One adapter invocation inside `SecurityScanner.scan`: if the adapter is
enabled its result extends the accumulated findings; an adapter exception
(`Except.error`) is caught, and re-raised only in strict mode.  A disabled
adapter (`self.semgrep is None` / `self.gitleaks is None`) is not invoked. -/
def scanStep (strict : Bool) (enabled : Bool) (run : Except Unit (List Finding))
    (acc : List Finding) : Except Unit (List Finding) :=
  if enabled then
    match run with
    | .ok fs => .ok (acc ++ fs)
    | .error e => if strict then .error e else .ok acc
  else .ok acc

/-- `SecurityScanner.scan` (security_orchestrator.py lines 67-125).
`pathExists` models the `repo_path.exists()` pre-check; `semgrepRun` and
`gitleaksRun` are the outcomes of the two adapter calls (`Except.error` =
the adapter raised); `valid` is the schema predicate of the
`FindingValidator` (cf. `validationStage`).  Semgrep runs first, then
Gitleaks; with both adapters disabled the scan returns `[]` before the
validator is ever applied. -/
def scan (cfg : ScanConfig) (pathExists : Bool)
    (semgrepRun gitleaksRun : Except Unit (List Finding))
    (valid : Finding → Bool) : Except Unit (List Finding) :=
  if pathExists = false then .ok []
  else do
    let acc ← scanStep cfg.strictValidation cfg.enableSemgrep semgrepRun []
    let acc ← scanStep cfg.strictValidation cfg.enableGitleaks gitleaksRun acc
    if cfg.enableSemgrep = false ∧ cfg.enableGitleaks = false then pure []
    else pure (validateAll valid acc)

/-! ### Spec-modelled schema -/

/-- Modelled from the spec: the JSON schema file
`contracts/child_agent_schema.json` is referenced by
`FindingValidator.__init__` and by the tests but is not part of the source
tree.  Following spec §3, §4.1 and §4.2, the schema requires `finding`
(non-empty string), `evidence` (a list whose items carry `path`, `lines`
and `why_relevant`; `code_snippet` optional; the list may be empty),
`confidence` (a number in [0.0, 1.0] — §4.1: range-checked by the core),
`tool`, `severity` (one of the five closed values), `rule_id` and
`remediation`. -/
def schemaValid (f : Finding) : Bool :=
  match f.finding, f.evidence, f.confidence, f.tool, f.severity, f.rule_id, f.remediation with
  | some fi, some ev, some c, some _, some sev, some _, some _ =>
    (fi != "") &&
    (decide (0 ≤ c) && decide (c ≤ 1)) &&
    (sev == "critical" || sev == "high" || sev == "medium" || sev == "low" || sev == "info") &&
    ev.all (fun e => e.path.isSome && e.lines.isSome && e.why_relevant.isSome)
  | _, _, _, _, _, _, _ => false

/-- Erase the `confidence` field (for the confidence-noninterference claim). -/
def eraseConf (f : Finding) : Finding := { f with confidence := none }

/-- Two findings that agree on everything except possibly `confidence`. -/
def sameExceptConf (a b : Finding) : Prop := eraseConf a = eraseConf b

instance (a b : Finding) : Decidable (sameExceptConf a b) := by
  unfold sameExceptConf
  infer_instance

/-- The confidence field is present and within the schema's [0, 1] range. -/
def confOk (f : Finding) : Prop := ∃ c : ℚ, f.confidence = some c ∧ 0 ≤ c ∧ c ≤ 1

/-! ### Concrete records used as test inputs -/

/-- A schema-complete finding with dedup key `("config.py", "L10", "generic-api-key")`,
produced by tool `gitleaks`. -/
def recDupA : Finding :=
  { finding := some "Hardcoded API key detected"
    evidence := some [{ path := some "config.py", lines := some "L10"
                        why_relevant := some "API key hardcoded in source code"
                        code_snippet := some "API_KEY = 'X'" }]
    confidence := some 1
    tool := some "gitleaks"
    severity := some "high"
    rule_id := some "generic-api-key"
    remediation := some "Rotate the key"
    path := none
    lines := none }

/-- Same dedup key as `recDupA` but a different `tool` (and severity). -/
def recDupB : Finding :=
  { finding := some "Hardcoded API key detected"
    evidence := some [{ path := some "config.py", lines := some "L10"
                        why_relevant := some "API key hardcoded in source code"
                        code_snippet := some "API_KEY = 'X'" }]
    confidence := some 1
    tool := some "semgrep"
    severity := some "critical"
    rule_id := some "generic-api-key"
    remediation := some "Rotate the key"
    path := none
    lines := none }

/-- A record with an *empty* evidence list but finding-level `path`/`lines`
keys (exercises the fallback branch of `_deduplicate`). -/
def recTopLevel : Finding :=
  { finding := some "f"
    evidence := some []
    confidence := some 1
    tool := some "gitleaks"
    severity := some "high"
    rule_id := some "r"
    remediation := some "rem"
    path := some "top.py"
    lines := some "L7" }

/-- A schema-complete record with in-range confidence 1. -/
def recConfGood : Finding :=
  { finding := some "f", evidence := some [], confidence := some 1, tool := some "t"
    severity := some "info", rule_id := some "r", remediation := some "m"
    path := none, lines := none }

/-- Identical to `recConfGood` except for an out-of-range confidence 2. -/
def recConfBad : Finding := { recConfGood with confidence := some 2 }

/-- Identical to `recConfGood` except for the in-range confidence 0. -/
def recConfZero : Finding := { recConfGood with confidence := some 0 }

/-- A Semgrep result whose native severity is outside the mapped set. -/
def semgrepUnknownSev : SemgrepResult :=
  { check_id := some "rule"
    path := some "a.py"
    start_line := some 1
    end_line := some 1
    message := some "m"
    extra := some { severity := some "BANANA", lines := none, metadata := none } }

/-! ## C4 — secret redaction -/

/-- Auxiliary: the concrete shape of redaction for long secrets. -/
theorem redactSecret_long (s : List Char) (h : 8 < s.length) :
    redactSecret s = s.take 4 ++ "...".data ++ s.drop (s.length - 4) := by
  have hs : s ≠ [] := by
    intro e; subst e; simp at h
  unfold redactSecret
  rw [if_neg hs, if_neg (by omega)]

/-- Auxiliary: any contiguous substring of length ≥ 9 of the redacted output
contains the character `.`; hence if the secret has no `.`, no such
substring of the secret survives redaction. -/
theorem redactSecret_no_long_infix (s : List Char) (h8 : 8 < s.length)
    (hdot : '.' ∉ s) (t : List Char) (ht : t <:+: s) (hlen : 9 ≤ t.length) :
    ¬ t <:+: redactSecret s := by
  intro hin
  rw [redactSecret_long s h8] at hin
  obtain ⟨p, q, hpq⟩ := hin
  have h3 : ("...".data).length = 3 := rfl
  have hlt : (s.take 4 ++ "...".data ++ s.drop (s.length - 4)).length = 11 := by
    simp only [List.length_append, List.length_take, List.length_drop, h3]
    omega
  have hlen2 : p.length + (t.length + q.length) = 11 := by
    have hc := congrArg List.length hpq
    rw [hlt] at hc
    simpa [List.length_append] using hc
  have hp2 : p.length ≤ 2 := by omega
  -- the character at global index 4 is a dot
  have hdot4 : (s.take 4 ++ "...".data ++ s.drop (s.length - 4))[4]? = some '.' := by
    have h4 : (s.take 4).length = 4 := by
      simp only [List.length_take]; omega
    rw [List.append_assoc, List.getElem?_append_right (by omega), h4]
    simp
  -- that index lands inside `t`
  have hidx : t[4 - p.length]? = some '.' := by
    rw [← hpq] at hdot4
    rw [List.append_assoc, List.getElem?_append_right (by omega)] at hdot4
    rw [List.getElem?_append] at hdot4
    rwa [if_pos (by omega)] at hdot4
  have h1 : 4 - p.length < t.length := by omega
  have h2 : t[4 - p.length] = '.' := by
    have hg := List.getElem?_eq_getElem h1
    rw [hg] at hidx
    exact Option.some.inj hidx
  exact hdot (ht.subset (h2 ▸ List.getElem_mem h1))

/-- C4 counterexample: for the secret `"abcd...wxyz"` (length 11 > 8),
redaction returns the secret itself, so the output contains the whole
secret — a contiguous substring of `S` of length ≥ 9 — refuting the claim
that the redacted output never contains such a substring. -/
theorem c4_counterexample :
    8 < "abcd...wxyz".data.length ∧
    redactSecret "abcd...wxyz".data = "abcd...wxyz".data ∧
    "abcd...wxyz".data <:+: redactSecret "abcd...wxyz".data ∧
    9 ≤ "abcd...wxyz".data.length := by
  refine ⟨by decide, by decide, ?_, by decide⟩
  have h : redactSecret "abcd...wxyz".data = "abcd...wxyz".data := by decide
  rw [h]

/-- C4 (amended): a secret of length ≤ 8 (including the empty secret)
redacts to the fixed placeholder; a secret of length > 8 redacts to exactly
its first 4 characters, `"..."`, and its last 4 characters, and — provided
the secret contains no `.` character — the output contains neither the
secret nor any contiguous substring of the secret of length 9 or more. -/
theorem c4_redaction (s : List Char) :
    (s.length ≤ 8 → redactSecret s = "[REDACTED]".data) ∧
    (8 < s.length →
      redactSecret s = s.take 4 ++ "...".data ++ s.drop (s.length - 4) ∧
      ('.' ∉ s → ∀ t, t <:+: s → 9 ≤ t.length → ¬ t <:+: redactSecret s)) := by
  constructor
  · intro h
    unfold redactSecret
    by_cases hs : s = []
    · rw [if_pos hs]
    · rw [if_neg hs, if_pos h]
  · intro h
    exact ⟨redactSecret_long s h, fun hdot t ht hlen => redactSecret_no_long_infix s h hdot t ht hlen⟩

/-- Witness for C4 (amended), at the short secret `"pw"` and the long
dot-free secret `"secretvalue123"` (taking `t` to be the secret itself). -/
theorem c4_redaction_witness :
    redactSecret "pw".data = "[REDACTED]".data ∧
    ¬ "secretvalue123".data <:+: redactSecret "secretvalue123".data := by
  constructor
  · exact (c4_redaction "pw".data).1 (by decide)
  · exact ((c4_redaction "secretvalue123".data).2 (by decide)).2 (by decide)
      _ (List.infix_refl _) (by decide)

/-! ## C5 — dedup key fallback for records without evidence -/

/-- C5 counterexample: a record with an empty evidence list but finding-level
`path`/`lines` keys gets dedup key `("top.py", "L7", "r")`, not the
empty-string defaults the claim asserts. -/
theorem c5_counterexample :
    recTopLevel.evidence = some [] ∧
    dedupKey recTopLevel = ("top.py", "L7", "r") ∧
    dedupKey recTopLevel ≠ ("", "", "r") := by decide

/-- C5 (amended): when the evidence sequence is absent or empty, the key's
`path` and `lines` components are taken from the record's finding-level
`path`/`lines` entries, defaulting to the empty string only when those are
absent as well. -/
theorem c5_fallback (f : Finding) (h : f.evidence = none ∨ f.evidence = some []) :
    dedupKey f = (f.path.getD "", f.lines.getD "", f.rule_id.getD "") := by
  rcases h with h | h <;> simp [dedupKey, h]

/-- Witness for C5 (amended) at `recTopLevel` (empty evidence list). -/
theorem c5_fallback_witness :
    dedupKey recTopLevel =
      (recTopLevel.path.getD "", recTopLevel.lines.getD "", recTopLevel.rule_id.getD "") :=
  c5_fallback recTopLevel (Or.inr rfl)

/-! ## C6 — adapter severity mapping -/

/-- C6 counterexample: the Semgrep adapter maps the unmapped native severity
`"BANANA"` to `medium`, not to `info` as the claim asserts. -/
theorem c6_counterexample :
    (semgrepToFinding semgrepUnknownSev).severity = some "medium" ∧
    (semgrepToFinding semgrepUnknownSev).severity ≠ some "info" := by
  constructor
  · rfl
  · intro h
    exact absurd (Option.some.inj h) (by decide)

/-- C6 (amended): the analyzer adapter maps native levels ERROR, WARNING,
INFO (compared after upper-casing) to critical, high, medium respectively;
any native severity outside the mapped set is treated as `medium` (not
`info`); the produced finding's severity is exactly this mapping of the
native severity (default `"medium"` when absent); and the secret-scanner
adapter assigns severity `critical` to every finding it produces. -/
theorem c6_severity_mapping :
    semgrepMapSeverity "ERROR" = "critical" ∧
    semgrepMapSeverity "WARNING" = "high" ∧
    semgrepMapSeverity "INFO" = "medium" ∧
    (∀ s : String, pyUpper s ∉ (["ERROR", "WARNING", "INFO"] : List String) →
      semgrepMapSeverity s = "medium") ∧
    (∀ r : SemgrepResult,
      (semgrepToFinding r).severity =
        some (semgrepMapSeverity ((r.extra.bind (·.severity)).getD "medium"))) ∧
    (∀ g : GitleaksMatch, (gitleaksToFinding g).severity = some "critical") := by
  refine ⟨by decide, by decide, by decide, ?_, fun r => rfl, fun g => rfl⟩
  intro s h
  simp only [List.mem_cons, List.not_mem_nil, or_false] at h
  push_neg at h
  simp only [semgrepMapSeverity]
  rw [if_neg h.1, if_neg h.2.1, if_neg h.2.2]

/-- Witness for C6 (amended) at the unmapped native severity `"BANANA"`. -/
theorem c6_severity_mapping_witness :
    pyUpper "BANANA" ∉ (["ERROR", "WARNING", "INFO"] : List String) ∧
    semgrepMapSeverity "BANANA" = "medium" :=
  ⟨by decide, c6_severity_mapping.2.2.2.1 "BANANA" (by decide)⟩

/-! ## C7 — strict-mode adapter failure policy -/

/-- C7: with both adapters enabled and strict mode off, an adapter exception
is absorbed at its boundary and the scan returns exactly the validated,
deduplicated, sorted output of the other adapter's findings alone; with
strict mode on, the exception propagates (`Except.error`) and no finding
list is returned. -/
theorem c7_partial_failure (fs gs : List Finding) (valid : Finding → Bool) :
    scan ⟨true, true, false⟩ true (.error ()) (.ok gs) valid = .ok (validateAll valid gs) ∧
    scan ⟨true, true, false⟩ true (.ok fs) (.error ()) valid = .ok (validateAll valid fs) ∧
    (∀ g : Except Unit (List Finding),
      scan ⟨true, true, true⟩ true (.error ()) g valid = .error ()) ∧
    scan ⟨true, true, true⟩ true (.ok fs) (.error ()) valid = .error () := by
  refine ⟨?_, ?_, fun g => ?_, ?_⟩ <;>
    simp [scan, scanStep, validateAll, Bind.bind, Except.bind, Pure.pure, Except.pure]

/-! ## C8 — all adapters disabled -/

/-- C8: with both adapters disabled the scan is not an error: it returns the
empty finding list for every path state, every adapter outcome and every
validation predicate — in particular the result does not depend on the
validator, mirroring the short-circuit before the validation/dedup/sort
stages. -/
theorem c8_all_disabled (strict pathOk : Bool) (s g : Except Unit (List Finding))
    (valid : Finding → Bool) :
    scan ⟨false, false, strict⟩ pathOk s g valid = .ok [] := by
  cases pathOk <;> simp [scan, scanStep, Bind.bind, Except.bind, Pure.pure, Except.pure]

/-! ## C1 — deduplication keeps the first record per key -/

/-- The dedup loop with an arbitrary `seen` set equals keep-first applied to
the records whose key is not yet seen. -/
theorem dedupGo_eq_keepFirst (l : List Finding) :
    ∀ seen : List DKey,
      dedupGo seen l = keepFirst (l.filter (fun f => decide (dedupKey f ∉ seen))) := by
  induction l with
  | nil => intro seen; simp [dedupGo, keepFirst]
  | cons f rest ih =>
    intro seen
    simp only [dedupGo]
    by_cases hk : dedupKey f ∈ seen
    · rw [if_pos hk, List.filter_cons_of_neg (by simp [hk]), ih seen]
    · rw [if_neg hk, List.filter_cons_of_pos (by simp [hk]), ih (dedupKey f :: seen)]
      have hfil :
          (rest.filter (fun g => decide (dedupKey g ∉ seen))).filter
              (fun g => decide (dedupKey g ≠ dedupKey f)) =
            rest.filter (fun g => decide (dedupKey g ∉ dedupKey f :: seen)) := by
        rw [List.filter_filter]
        apply List.filter_congr
        intro g _
        by_cases h1 : dedupKey g = dedupKey f <;> by_cases h2 : dedupKey g ∈ seen <;>
          simp [h1, h2]
      rw [keepFirst, hfil]

/-- Auxiliary: members of the dedup loop output come from the input. -/
theorem mem_dedupGo {f : Finding} :
    ∀ {l : List Finding} {seen : List DKey}, f ∈ dedupGo seen l → f ∈ l := by
  intro l
  induction l with
  | nil => intro seen h; simp [dedupGo] at h
  | cons g rest ih =>
    intro seen h
    simp only [dedupGo] at h
    by_cases hk : dedupKey g ∈ seen
    · rw [if_pos hk] at h
      exact List.mem_cons_of_mem _ (ih h)
    · rw [if_neg hk] at h
      rcases List.mem_cons.mp h with h | h
      · exact h ▸ List.mem_cons_self _ _
      · exact List.mem_cons_of_mem _ (ih h)

/-- C1: `_deduplicate` keeps exactly the first record observed for each
distinct key, in input order (it equals the keep-first reference function on
every input); in particular two records with the same key but different
`tool` fields collapse to exactly the first one. -/
theorem c1_dedup_keeps_first :
    (∀ l : List Finding, deduplicate l = keepFirst l) ∧
    dedupKey recDupA = dedupKey recDupB ∧
    recDupA.tool ≠ recDupB.tool ∧
    deduplicate [recDupA, recDupB] = [recDupA] := by
  refine ⟨?_, by decide, by decide, by decide⟩
  intro l
  rw [deduplicate, dedupGo_eq_keepFirst l []]
  congr 1
  apply List.filter_eq_self.mpr
  intro a _
  simp

/-! ## C3 — validation gate -/

/-- C3: the validation stage of `validate_all` is exactly a filter by the
schema predicate — each invalid record is dropped individually without
aborting the batch and survivors keep their relative input order (the stage
output is an order-preserving sublist of the input); invalid records never
reach deduplication/sorting (those stages consume exactly the filtered
list); and no record failing validation ever appears in the final output. -/
theorem c3_validation_gate (valid : Finding → Bool) (l : List Finding) :
    validationStage valid l = l.filter (fun f => valid f) ∧
    List.Sublist (validationStage valid l) l ∧
    validateAll valid l = sortFindings (deduplicate (l.filter (fun f => valid f))) ∧
    (∀ f : Finding, f ∈ validateAll valid l → valid f = true) := by
  have hstage : validationStage valid l = l.filter (fun f => valid f) := by
    induction l with
    | nil => rfl
    | cons f rest ih =>
      simp only [validationStage]
      cases hv : valid f <;> simp [List.filter_cons, hv, ih]
  refine ⟨hstage, hstage ▸ List.filter_sublist l, by rw [validateAll, hstage], ?_⟩
  intro f hf
  rw [validateAll, hstage] at hf
  rw [sortFindings, List.mem_insertionSort] at hf
  have hf2 : f ∈ dedupGo [] (l.filter (fun f => valid f)) := hf
  exact (List.mem_filter.mp (mem_dedupGo hf2)).2

/-- Witness for C3 at the schema predicate and the singleton batch
`[recDupA]`. -/
theorem c3_validation_gate_witness : schemaValid recDupA = true :=
  (c3_validation_gate schemaValid [recDupA]).2.2.2 recDupA (by decide)

/-! ## C2 — severity/line sorting -/

/-- A decimal digit character is none of the special characters handled by
the line parser. -/
theorem digit_ne_special (c : Char) (h : c.isDigit = true) :
    c ≠ 'L' ∧ c ≠ '-' ∧ c ≠ '+' := by
  refine ⟨?_, ?_, ?_⟩ <;> intro e <;> subst e <;> exact absurd h (by decide)

/-- A decimal digit character is not whitespace. -/
theorem digit_not_ws (c : Char) (h : c.isDigit = true) : c.isWhitespace = false := by
  cases hw : c.isWhitespace
  · rfl
  · exfalso
    simp only [Char.isWhitespace, Bool.or_eq_true, decide_eq_true_eq] at hw
    rcases hw with ((e | e) | e) | e <;> subst e <;> exact absurd h (by decide)

/-- `dropWhile` is the identity when no element satisfies the predicate. -/
theorem dropWhile_of_all_neg {p : Char → Bool} :
    ∀ {l : List Char}, (∀ c ∈ l, p c = false) → l.dropWhile p = l
  | [], _ => rfl
  | c :: cs, h => by
    simp [List.dropWhile, h c (List.mem_cons_self _ _)]

/-- `takeWhile` is the identity when every element satisfies the predicate. -/
theorem takeWhile_of_all_pos {p : Char → Bool} :
    ∀ {l : List Char}, (∀ c ∈ l, p c = true) → l.takeWhile p = l
  | [], _ => rfl
  | c :: cs, h => by
    simp only [List.takeWhile, h c (List.mem_cons_self _ _)]
    exact congrArg (c :: ·) (takeWhile_of_all_pos (fun x hx => h x (List.mem_cons_of_mem _ hx)))

/-- `takeWhile` walks through a fully-satisfying prefix. -/
theorem takeWhile_append_of_all_pos {p : Char → Bool} :
    ∀ {l₁ : List Char} (l₂ : List Char), (∀ c ∈ l₁, p c = true) →
      (l₁ ++ l₂).takeWhile p = l₁ ++ l₂.takeWhile p
  | [], l₂, _ => rfl
  | c :: cs, l₂, h => by
    simp only [List.cons_append, List.takeWhile, h c (List.mem_cons_self _ _)]
    exact congrArg (c :: ·)
      (takeWhile_append_of_all_pos l₂ (fun x hx => h x (List.mem_cons_of_mem _ hx)))

/-- `Nat.digitChar` produces digit characters below base 10. -/
theorem digitChar_isDigit (d : ℕ) (h : d < 10) : (Nat.digitChar d).isDigit = true := by
  interval_cases d <;> decide

/-- Numeric value of `Nat.digitChar` below base 10. -/
theorem digitChar_val (d : ℕ) (h : d < 10) :
    ((Nat.digitChar d).toNat : ℤ) - 48 = d := by
  interval_cases d <;> decide

/-- The accumulator of `Nat.toDigitsCore` is a suffix. -/
theorem toDigitsCore_append (f : ℕ) :
    ∀ (n : ℕ) (acc : List Char),
      Nat.toDigitsCore 10 f n acc = Nat.toDigitsCore 10 f n [] ++ acc := by
  induction f with
  | zero => intro n acc; rfl
  | succ f ih =>
    intro n acc
    simp only [Nat.toDigitsCore]
    by_cases h : n / 10 = 0
    · simp [h]
    · rw [if_neg h, if_neg h, ih (n / 10) (Nat.digitChar (n % 10) :: acc),
        ih (n / 10) [Nat.digitChar (n % 10)], List.append_assoc, List.singleton_append]

/-- `Nat.toDigitsCore` does not depend on the fuel once it is sufficient. -/
theorem toDigitsCore_fuel (n : ℕ) :
    ∀ (f g : ℕ), n < f → n < g →
      Nat.toDigitsCore 10 f n [] = Nat.toDigitsCore 10 g n [] := by
  induction n using Nat.strong_induction_on with
  | _ n ih =>
    intro f g hf hg
    cases f with
    | zero => omega
    | succ f =>
      cases g with
      | zero => omega
      | succ g =>
        simp only [Nat.toDigitsCore]
        by_cases h : n / 10 = 0
        · simp [h]
        · rw [if_neg h, if_neg h, toDigitsCore_append f, toDigitsCore_append g]
          have hn : n ≠ 0 := by
            intro e; subst e; exact h rfl
          have hlt : n / 10 < n := Nat.div_lt_self (by omega) (by omega)
          rw [ih (n / 10) hlt f g (by omega) (by omega)]

/-- The decimal digit string of `n` is non-empty. -/
theorem toDigits_ne_nil (n : ℕ) : Nat.toDigits 10 n ≠ [] := by
  unfold Nat.toDigits
  simp only [Nat.toDigitsCore]
  by_cases h : n / 10 = 0
  · simp [h]
  · rw [if_neg h, toDigitsCore_append]
    simp

/-- All characters of the decimal digit string are digits. -/
theorem toDigitsCore_digits (f : ℕ) :
    ∀ (n : ℕ) (acc : List Char), (∀ c ∈ acc, c.isDigit = true) →
      ∀ c ∈ Nat.toDigitsCore 10 f n acc, c.isDigit = true := by
  induction f with
  | zero => intro n acc hacc; exact hacc
  | succ f ih =>
    intro n acc hacc c hc
    simp only [Nat.toDigitsCore] at hc
    have hmod : n % 10 < 10 := Nat.mod_lt _ (by omega)
    by_cases h : n / 10 = 0
    · rw [if_pos h] at hc
      rcases List.mem_cons.mp hc with e | hm
      · exact e ▸ digitChar_isDigit _ hmod
      · exact hacc c hm
    · rw [if_neg h] at hc
      refine ih (n / 10) (Nat.digitChar (n % 10) :: acc) ?_ c hc
      intro x hx
      rcases List.mem_cons.mp hx with e | hm
      · exact e ▸ digitChar_isDigit _ hmod
      · exact hacc x hm

/-- All characters of `Nat.toDigits 10 n` are digits. -/
theorem toDigits_digits (n : ℕ) : ∀ c ∈ Nat.toDigits 10 n, c.isDigit = true :=
  toDigitsCore_digits (n + 1) n [] (by simp)

/-- Folding the base-10 Horner step over the decimal digit string of `n`
recovers `n`. -/
theorem val_toDigits (n : ℕ) :
    (Nat.toDigits 10 n).foldl (fun a c => 10 * a + ((c.toNat : ℤ) - 48)) 0 = n := by
  induction n using Nat.strong_induction_on with
  | _ n ih =>
    unfold Nat.toDigits
    simp only [Nat.toDigitsCore]
    have hmod : n % 10 < 10 := Nat.mod_lt _ (by omega)
    by_cases h : n / 10 = 0
    · rw [if_pos h]
      have hlt : n < 10 := by
        rcases Nat.lt_or_ge n 10 with hc | hc
        · exact hc
        · exact absurd h (by
            have : 1 ≤ n / 10 := (Nat.le_div_iff_mul_le (by omega)).mpr (by omega)
            omega)
      simp only [List.foldl_cons, List.foldl_nil, mul_zero, zero_add]
      rw [digitChar_val _ hmod, Nat.mod_eq_of_lt hlt]
    · rw [if_neg h, toDigitsCore_append n]
      have hn : n ≠ 0 := by intro e; subst e; exact h rfl
      have hlt : n / 10 < n := Nat.div_lt_self (by omega) (by omega)
      have hfuel : Nat.toDigitsCore 10 n (n / 10) [] = Nat.toDigits 10 (n / 10) := by
        unfold Nat.toDigits
        exact toDigitsCore_fuel (n / 10) n (n / 10 + 1) (by omega) (by omega)
      rw [hfuel, List.foldl_append]
      rw [ih (n / 10) hlt]
      simp only [List.foldl_cons, List.foldl_nil]
      rw [digitChar_val _ hmod]
      have := Nat.div_add_mod n 10
      push_cast
      omega

/-- `pyInt` on a non-empty all-digit string returns its Horner value. -/
theorem pyInt_digits (ds : List Char) (hne : ds ≠ [])
    (hd : ∀ c ∈ ds, c.isDigit = true) :
    pyInt ds = some (ds.foldl (fun a c => 10 * a + ((c.toNat : ℤ) - 48)) 0) := by
  obtain ⟨c, cs, rfl⟩ := List.exists_cons_of_ne_nil hne
  have h1 : ((c :: cs).dropWhile Char.isWhitespace) = c :: cs :=
    dropWhile_of_all_neg (fun x hx => digit_not_ws x (hd x hx))
  have h2 : ((c :: cs).reverse.dropWhile Char.isWhitespace) = (c :: cs).reverse :=
    dropWhile_of_all_neg (fun x hx => digit_not_ws x (hd x (List.mem_reverse.mp hx)))
  obtain ⟨hL, hminus, hplus⟩ := digit_ne_special c (hd c (List.mem_cons_self _ _))
  simp only [pyInt, h1, h2, List.reverse_reverse, List.headD_cons]
  rw [if_neg (by tauto : ¬(c = '+' ∨ c = '-'))]
  rw [if_pos (by
    simp only [List.isEmpty_cons, Bool.not_false, Bool.true_and, List.all_eq_true]
    exact fun x hx => hd x hx)]
  rw [decide_eq_false hminus]
  simp

/-- `parseLineNum` recovers the line number from the canonical single-line
form `"L<n>"`. -/
theorem parseLineNum_repr (n : ℕ) : parseLineNum ("L" ++ Nat.repr n) = (n : ℤ) := by
  have hdig := toDigits_digits n
  have hdata : ("L" ++ Nat.repr n).data = 'L' :: Nat.toDigits 10 n := by
    rw [String.data_append]
    rfl
  unfold parseLineNum
  rw [hdata, if_neg (by simp)]
  rw [List.filter_cons_of_neg (by simp)]
  rw [List.filter_eq_self.mpr (by
    intro a ha
    simpa using (digit_ne_special a (hdig a ha)).1)]
  rw [takeWhile_of_all_pos (by
    intro a ha
    simpa using (digit_ne_special a (hdig a ha)).2.1)]
  rw [pyInt_digits _ (toDigits_ne_nil n) hdig]
  rw [Option.getD_some, val_toDigits]

/-- `parseLineNum` recovers the *start* line from the canonical range form
`"L<n>-L<m>"`, ignoring the range end. -/
theorem parseLineNum_repr_range (n m : ℕ) :
    parseLineNum ("L" ++ Nat.repr n ++ "-L" ++ Nat.repr m) = (n : ℤ) := by
  have hdign := toDigits_digits n
  have hdigm := toDigits_digits m
  have hdata : ("L" ++ Nat.repr n ++ "-L" ++ Nat.repr m).data =
      'L' :: (Nat.toDigits 10 n ++ '-' :: 'L' :: Nat.toDigits 10 m) := by
    rw [String.data_append, String.data_append, String.data_append,
      (rfl : "L".data = ['L']), (rfl : "-L".data = ['-', 'L']),
      (rfl : (Nat.repr n).data = Nat.toDigits 10 n),
      (rfl : (Nat.repr m).data = Nat.toDigits 10 m)]
    simp only [List.append_assoc, List.cons_append, List.singleton_append]
    rfl
  unfold parseLineNum
  rw [hdata, if_neg (by simp)]
  rw [List.filter_cons_of_neg (by simp)]
  rw [List.filter_append]
  rw [List.filter_eq_self.mpr (by
    intro a ha
    simpa using (digit_ne_special a (hdign a ha)).1)]
  rw [List.filter_cons_of_pos (by decide), List.filter_cons_of_neg (by simp)]
  rw [List.filter_eq_self.mpr (by
    intro a ha
    simpa using (digit_ne_special a (hdigm a ha)).1)]
  rw [takeWhile_append_of_all_pos _ (by
    intro a ha
    simpa using (digit_ne_special a (hdign a ha)).2.1)]
  rw [(by simp [List.takeWhile] :
    (('-' :: Nat.toDigits 10 m).takeWhile (fun c => decide (c ≠ '-'))) = [])]
  rw [List.append_nil]
  rw [pyInt_digits _ (toDigits_ne_nil n) hdign]
  rw [Option.getD_some, val_toDigits]

/-- Stability of `orderedInsert` with respect to key-filtering. -/
theorem filter_key_orderedInsert (k : ℕ × ℤ) (a : Finding) (l : List Finding) :
    (List.orderedInsert fLe a l).filter (fun f => decide (sortKey f = k)) =
      if sortKey a = k then a :: l.filter (fun f => decide (sortKey f = k))
      else l.filter (fun f => decide (sortKey f = k)) := by
  rw [List.orderedInsert_eq_take_drop, List.filter_append]
  by_cases h : sortKey a = k
  · rw [if_pos h]
    have htw : (l.takeWhile fun b => decide ¬ fLe a b).filter
        (fun f => decide (sortKey f = k)) = [] := by
      rw [List.filter_eq_nil]
      intro b hb
      have hnb : ¬ fLe a b := by simpa using List.mem_takeWhile_imp hb
      simp only [decide_eq_true_eq]
      intro he
      exact hnb (Or.inr ⟨by rw [h, he], by rw [h, he]⟩)
    rw [htw, List.nil_append, List.filter_cons_of_pos (by simp [h])]
    conv_rhs => rw [← List.takeWhile_append_dropWhile (p := fun b => decide ¬ fLe a b) (l := l)]
    rw [List.filter_append, htw, List.nil_append]
  · rw [if_neg h, List.filter_cons_of_neg (by simp [h])]
    conv_rhs => rw [← List.takeWhile_append_dropWhile (p := fun b => decide ¬ fLe a b) (l := l)]
    rw [List.filter_append]

/-- Stability of the sort: the subsequence of records with any fixed
composite key is unchanged. -/
theorem filter_key_sortFindings (k : ℕ × ℤ) :
    ∀ l : List Finding,
      (sortFindings l).filter (fun f => decide (sortKey f = k)) =
        l.filter (fun f => decide (sortKey f = k))
  | [] => rfl
  | f :: rest => by
    show (List.orderedInsert fLe f (sortFindings rest)).filter _ = _
    rw [filter_key_orderedInsert]
    by_cases h : sortKey f = k
    · rw [if_pos h, filter_key_sortFindings k rest, List.filter_cons_of_pos (by simp [h])]
    · rw [if_neg h, filter_key_sortFindings k rest, List.filter_cons_of_neg (by simp [h])]

/-- C2: the sort output is ordered by severity rank (critical=0, high=1,
medium=2, low=3, info=4, anything else 4) and, within equal rank, by
non-decreasing parsed line number; the sort is stable for equal composite
keys (the subsequence of records with any fixed key is preserved); the
secondary key is the integer immediately following the `L` of the first
evidence item's canonical `"L<start>"` / `"L<start>-L<end>"` lines field
(ignoring the range end), and 0 when the lines field or the evidence is
absent. -/
theorem c2_sort_order :
    (∀ l : List Finding,
      (sortFindings l).Pairwise (fun f g =>
        severityScore f ≤ severityScore g ∧
        (severityScore f = severityScore g → lineNumOf f ≤ lineNumOf g))) ∧
    (∀ (l : List Finding) (k : ℕ × ℤ),
      (sortFindings l).filter (fun f => decide (sortKey f = k)) =
        l.filter (fun f => decide (sortKey f = k))) ∧
    severityTable "critical" = 0 ∧ severityTable "high" = 1 ∧
    severityTable "medium" = 2 ∧ severityTable "low" = 3 ∧ severityTable "info" = 4 ∧
    (∀ s : String, s ∉ (["critical", "high", "medium", "low", "info"] : List String) →
      severityTable s = 4) ∧
    (∀ f : Finding, severityScore f = severityTable (pyLower (f.severity.getD "info"))) ∧
    (∀ n : ℕ, parseLineNum ("L" ++ Nat.repr n) = (n : ℤ)) ∧
    (∀ n m : ℕ, parseLineNum ("L" ++ Nat.repr n ++ "-L" ++ Nat.repr m) = (n : ℤ)) ∧
    parseLineNum "" = 0 ∧
    (∀ f : Finding, f.evidence = none ∨ f.evidence = some [] → lineNumOf f = 0) := by
  refine ⟨?_, fun l k => filter_key_sortFindings k l, rfl, rfl, rfl, rfl, rfl, ?_,
    fun f => rfl, parseLineNum_repr, parseLineNum_repr_range, rfl, ?_⟩
  · intro l
    have h := List.sorted_insertionSort fLe l
    refine h.imp ?_
    intro f g hfg
    simp only [fLe, keyLe, sortKey] at hfg
    rcases hfg with h1 | ⟨h1, h2⟩
    · exact ⟨Nat.le_of_lt h1, fun he => by omega⟩
    · exact ⟨Nat.le_of_eq h1, fun _ => h2⟩
  · intro s h
    simp only [List.mem_cons, List.not_mem_nil, or_false] at h
    push_neg at h
    obtain ⟨e1, e2, e3, e4, e5⟩ := h
    simp only [severityTable]
    rw [if_neg e1, if_neg e2, if_neg e3, if_neg e4, if_neg e5]
  · intro f h
    rcases h with h | h <;> simp [lineNumOf, h]

/-- Witness for C2 at the unknown severity value `"weird"`, the canonical
line strings `"L45"` and `"L100-L145"`, and a record with an empty evidence
list. -/
theorem c2_sort_order_witness :
    severityTable "weird" = 4 ∧
    parseLineNum ("L" ++ Nat.repr 45) = (45 : ℤ) ∧
    parseLineNum ("L" ++ Nat.repr 100 ++ "-L" ++ Nat.repr 145) = (100 : ℤ) ∧
    lineNumOf recTopLevel = 0 :=
  ⟨c2_sort_order.2.2.2.2.2.2.2.1 "weird" (by decide),
   c2_sort_order.2.2.2.2.2.2.2.2.2.1 45,
   c2_sort_order.2.2.2.2.2.2.2.2.2.2.1 100 145,
   c2_sort_order.2.2.2.2.2.2.2.2.2.2.2.2 recTopLevel (Or.inr rfl)⟩

/-! ## C9 — confidence noninterference -/

/-- The dedup key ignores the confidence field. -/
theorem dedupKey_eraseConf (f : Finding) : dedupKey (eraseConf f) = dedupKey f := by
  cases f; rfl

/-- The sort key ignores the confidence field. -/
theorem sortKey_eraseConf (f : Finding) : sortKey (eraseConf f) = sortKey f := by
  cases f; rfl

/-- Records equal up to confidence have the same dedup key. -/
theorem sameExceptConf_dedupKey {a b : Finding} (h : sameExceptConf a b) :
    dedupKey a = dedupKey b := by
  rw [← dedupKey_eraseConf a, h, dedupKey_eraseConf]

/-- Records equal up to confidence have the same sort key. -/
theorem sameExceptConf_sortKey {a b : Finding} (h : sameExceptConf a b) :
    sortKey a = sortKey b := by
  rw [← sortKey_eraseConf a, h, sortKey_eraseConf]

/-- Deduplication makes identical keep/drop decisions on lists equal up to
confidence, for any initial `seen` set. -/
theorem dedupGo_forall2 {l₁ l₂ : List Finding}
    (h : List.Forall₂ sameExceptConf l₁ l₂) :
    ∀ seen : List DKey,
      List.Forall₂ sameExceptConf (dedupGo seen l₁) (dedupGo seen l₂) := by
  induction h with
  | nil => intro seen; exact List.Forall₂.nil
  | @cons a b t₁ t₂ hab htl ih =>
    intro seen
    simp only [dedupGo]
    rw [sameExceptConf_dedupKey hab]
    by_cases hm : dedupKey b ∈ seen
    · rw [if_pos hm, if_pos hm]
      exact ih seen
    · rw [if_neg hm, if_neg hm]
      exact List.Forall₂.cons hab (ih _)

/-- `orderedInsert` respects equality up to confidence. -/
theorem orderedInsert_forall2 {a b : Finding} (hab : sameExceptConf a b) :
    ∀ {l₁ l₂ : List Finding}, List.Forall₂ sameExceptConf l₁ l₂ →
      List.Forall₂ sameExceptConf (List.orderedInsert fLe a l₁)
        (List.orderedInsert fLe b l₂) := by
  intro l₁ l₂ h
  induction h with
  | nil => exact List.Forall₂.cons hab List.Forall₂.nil
  | @cons x y t₁ t₂ hxy htl ih =>
    simp only [List.orderedInsert]
    have he : fLe a x ↔ fLe b y := by
      unfold fLe
      rw [sameExceptConf_sortKey hab, sameExceptConf_sortKey hxy]
    by_cases hc : fLe a x
    · rw [if_pos hc, if_pos (he.mp hc)]
      exact List.Forall₂.cons hab (List.Forall₂.cons hxy htl)
    · rw [if_neg hc, if_neg (fun hy => hc (he.mpr hy))]
      exact List.Forall₂.cons hxy ih

/-- Sorting produces the same ordering on lists equal up to confidence. -/
theorem sortFindings_forall2 {l₁ l₂ : List Finding}
    (h : List.Forall₂ sameExceptConf l₁ l₂) :
    List.Forall₂ sameExceptConf (sortFindings l₁) (sortFindings l₂) := by
  induction h with
  | nil => exact List.Forall₂.nil
  | cons hab htl ih => exact orderedInsert_forall2 hab ih

/-- The spec-modelled schema gives the same verdict on records equal up to
confidence, provided both confidence values are present and in range. -/
theorem schemaValid_same {a b : Finding} (hab : sameExceptConf a b)
    (ha : confOk a) (hb : confOk b) : schemaValid a = schemaValid b := by
  obtain ⟨c, hc, hc0, hc1⟩ := ha
  obtain ⟨d, hd, hd0, hd1⟩ := hb
  obtain ⟨f1, e1, c1, t1, s1, r1, m1, p1, li1⟩ := a
  obtain ⟨f2, e2, c2, t2, s2, r2, m2, p2, li2⟩ := b
  simp only [sameExceptConf, eraseConf, Finding.mk.injEq, and_true, true_and] at hab
  obtain ⟨h1, h2, h3, h4, h5, h6, h7, h8⟩ := hab
  subst h1; subst h2; subst h3; subst h4; subst h5; subst h6; subst h7; subst h8
  simp only at hc hd
  subst hc; subst hd
  cases f1 <;> cases e1 <;> cases t1 <;> cases s1 <;> cases r1 <;> cases m1 <;>
    simp [schemaValid, decide_eq_true hc0, decide_eq_true hc1,
      decide_eq_true hd0, decide_eq_true hd1]

/-- The validation stage makes the same keep/drop decisions on lists equal
up to confidence whose confidence values are in range. -/
theorem validationStage_forall2 {l₁ l₂ : List Finding}
    (h : List.Forall₂ sameExceptConf l₁ l₂) :
    (∀ f ∈ l₁, confOk f) → (∀ f ∈ l₂, confOk f) →
      List.Forall₂ sameExceptConf (validationStage schemaValid l₁)
        (validationStage schemaValid l₂) := by
  induction h with
  | nil => intro _ _; exact List.Forall₂.nil
  | @cons a b t₁ t₂ hab htl ih =>
    intro h₁ h₂
    simp only [validationStage]
    rw [schemaValid_same hab (h₁ a (List.mem_cons_self _ _)) (h₂ b (List.mem_cons_self _ _))]
    have ihr := ih (fun f hf => h₁ f (List.mem_cons_of_mem _ hf))
      (fun f hf => h₂ f (List.mem_cons_of_mem _ hf))
    by_cases hv : schemaValid b = true
    · rw [if_pos hv, if_pos hv]
      exact List.Forall₂.cons hab ihr
    · rw [if_neg hv, if_neg hv]
      exact ihr

/-- C9 counterexample: two singleton batches identical except in the value
of the confidence field (2 versus 1) receive *different* validation
decisions under the spec-modelled schema (which range-checks confidence),
refuting "the confidence field never participates in validation". -/
theorem c9_counterexample :
    sameExceptConf recConfBad recConfGood ∧
    validationStage schemaValid [recConfBad] = [] ∧
    validationStage schemaValid [recConfGood] = [recConfGood] := by
  refine ⟨by decide, ?_, ?_⟩ <;> decide

/-- C9 (amended): for any two record lists identical except in confidence
values, deduplication makes the same keep/drop decisions and sorting
produces the same ordering (confidence never participates in dedup or
ordering); validation reads confidence only for presence/type/range, so the
same keep/drop decisions — and hence identical end-to-end pipeline
behaviour — additionally require every confidence value on both sides to be
present and within [0, 1]. -/
theorem c9_confidence_noninterference {l₁ l₂ : List Finding}
    (h : List.Forall₂ sameExceptConf l₁ l₂) :
    (List.Forall₂ sameExceptConf (deduplicate l₁) (deduplicate l₂) ∧
     List.Forall₂ sameExceptConf (sortFindings l₁) (sortFindings l₂)) ∧
    ((∀ f ∈ l₁, confOk f) → (∀ f ∈ l₂, confOk f) →
      List.Forall₂ sameExceptConf (validationStage schemaValid l₁)
          (validationStage schemaValid l₂) ∧
        List.Forall₂ sameExceptConf (validateAll schemaValid l₁)
          (validateAll schemaValid l₂)) := by
  refine ⟨⟨dedupGo_forall2 h [], sortFindings_forall2 h⟩, ?_⟩
  intro h₁ h₂
  have hstage := validationStage_forall2 h h₁ h₂
  exact ⟨hstage, sortFindings_forall2 (dedupGo_forall2 hstage [])⟩

/-- Witness for C9 (amended) at the singleton batches `[recConfGood]` and
`[recConfZero]` (in-range confidences 1 and 0). -/
theorem c9_confidence_noninterference_witness :
    List.Forall₂ sameExceptConf (validateAll schemaValid [recConfGood])
      (validateAll schemaValid [recConfZero]) :=
  ((c9_confidence_noninterference
      (List.Forall₂.cons (by decide) List.Forall₂.nil)).2
    (by
      intro f hf
      rw [List.mem_singleton.mp hf]
      exact ⟨1, rfl, by decide, by decide⟩)
    (by
      intro f hf
      rw [List.mem_singleton.mp hf]
      exact ⟨0, rfl, by decide, by decide⟩)).2

/-! ## C10 — adapter evidence shape -/

/-- C10: every finding produced by either adapter's native-result conversion
carries exactly one evidence item, whose `lines` field has the form
`L<start>` or `L<start>-L<end>`. -/
theorem c10_adapter_lines_shape (r : SemgrepResult) (g : GitleaksMatch) :
    (∃ e : Evidence, (semgrepToFinding r).evidence = some [e] ∧
      ((∃ a : ℤ, e.lines = some ("L" ++ toString a)) ∨
       (∃ a b : ℤ, e.lines = some ("L" ++ toString a ++ "-L" ++ toString b)))) ∧
    (∃ e : Evidence, (gitleaksToFinding g).evidence = some [e] ∧
      ∃ a : ℤ, e.lines = some ("L" ++ toString a)) := by
  constructor
  · refine ⟨_, rfl, ?_⟩
    by_cases h : r.start_line.getD 0 = r.end_line.getD (r.start_line.getD 0)
    · refine Or.inl ⟨r.start_line.getD 0, ?_⟩
      show some (semgrepLinesStr r) = _
      rw [semgrepLinesStr, if_pos h]
    · refine Or.inr ⟨r.start_line.getD 0, r.end_line.getD (r.start_line.getD 0), ?_⟩
      show some (semgrepLinesStr r) = _
      rw [semgrepLinesStr, if_neg h]
  · exact ⟨_, rfl, g.StartLine.getD 0, rfl⟩

end PSO
